import Mathlib

/-!
Verification of the WebUntis Home Assistant config flow
(`custom_components/webuntis/config_flow.py`).

The Python module is shallowly embedded: dictionaries become association
lists over a value type `Val`, exceptions become an error enumeration
`VErr` together with `Except`, and every external effect (DNS lookup,
session login, student/class/teacher lookup, timetable fetch) is an
oracle recorded in an environment `Env`.
-/

set_option autoImplicit false

namespace WebUntis

/-- Python values that occur in the config/options dictionaries:
strings, booleans, lists of strings, (small) dicts, and `None`. -/
inductive Val where
  | s (v : String)
  | b (v : Bool)
  | list (v : List String)
  | dict (v : List (String × String))
  | none
deriving DecidableEq, Repr

/-- A Python dict with string keys, as an association list (keys unique
in any dict actually built by the code). -/
abbrev Dict := List (String × Val)

/-- Lookup of a key in a dict (`d[k]` / `d.get(k)`). -/
def dget (d : Dict) (k : String) : Option Val :=
  match d with
  | [] => Option.none
  | (k', v) :: rest => if k' = k then some v else dget rest k

/-- `d[k] = v` on a Python dict: replaces the value in place if the key
is present, appends the pair otherwise. -/
def dinsert (d : Dict) (k : String) (v : Val) : Dict :=
  match d with
  | [] => [(k, v)]
  | (k', v') :: rest =>
      if k' = k then (k', v) :: rest else (k', v') :: dinsert rest k v

/-- `old.update(new)` on Python dicts: each entry of `new` is inserted
into `old` in order. -/
def dupdate (old new : Dict) : Dict :=
  new.foldl (fun acc kv => dinsert acc kv.1 kv.2) old

/-- Lookup with Python-`None` default; the form schemas guarantee the
keys the steps access are present, so the default is never what the
running code sees on those keys. -/
def vget (d : Dict) (k : String) : Val :=
  (dget d k).getD Val.none

/-- Python truthiness of a `Val`. -/
def truthy : Val → Bool
  | .s v => !(v = "")
  | .b v => v
  | .list v => !v.isEmpty
  | .dict v => !v.isEmpty
  | .none => false

/-! ### Python string helpers -/

/-- ASCII lower-casing of one character, as Python `str.lower` acts on
ASCII input. -/
def pyLowerChar (c : Char) : Char :=
  Char.ofNat (if 65 ≤ c.toNat ∧ c.toNat ≤ 90 then c.toNat + 32 else c.toNat)

/-- ASCII upper-casing of one character, as Python `str.upper` acts on
ASCII input. -/
def pyUpperChar (c : Char) : Char :=
  Char.ofNat (if 97 ≤ c.toNat ∧ c.toNat ≤ 122 then c.toNat - 32 else c.toNat)

/-- Python `s.lower()`. -/
def pyLower (s : String) : String :=
  String.mk (s.toList.map pyLowerChar)

/-- Python `s.capitalize()`: first character upper-cased, all remaining
characters lower-cased. -/
def pyCapitalize (s : String) : String :=
  match s.toList with
  | [] => String.mk []
  | c :: rest => String.mk (pyUpperChar c :: rest.map pyLowerChar)

/-- Python `s.strip(" ")`: surrounding space characters removed. -/
def stripSpaces (s : String) : String :=
  String.mk
    (((s.toList.dropWhile (fun c => c = ' ')).reverse.dropWhile
        (fun c => c = ' ')).reverse)

/-- Python `s.strip()`: surrounding whitespace removed. -/
def stripWS (s : String) : String :=
  String.mk
    (((s.toList.dropWhile Char.isWhitespace).reverse.dropWhile
        Char.isWhitespace).reverse)

/-- Python `s.replace(" ", "-")`. -/
def spaceToDash (s : String) : String :=
  String.mk (s.toList.map (fun c => if c = ' ' then '-' else c))

/-- Python `s.split(sep)` for a one-character separator, on character
lists: splits at every occurrence, keeping empty parts. -/
def pySplitChars (sep : Char) : List Char → List (List Char)
  | [] => [[]]
  | c :: rest =>
      match pySplitChars sep rest with
      | [] => [[]]
      | cur :: others =>
          if c = sep then [] :: cur :: others else (c :: cur) :: others

/-- Python `s.split(sep)` for a one-character separator. -/
def pySplit (sep : Char) (s : String) : List String :=
  (pySplitChars sep s.toList).map String.mk

/-! ### The user-step data -/

/-- The `timetable_source_id` field: submitted as a string, replaced by a
two-element list of strings by `validate_input` for students/teachers. -/
inductive SourceId where
  | str (s : String)
  | list (l : List String)
deriving DecidableEq, Repr

/-- The fields of the user-step submission (the keys of
`STEP_USER_DATA_SCHEMA`). -/
structure UserInput where
  server : String
  school : String
  username : String
  password : String
  timetable_source : String
  timetable_source_id : SourceId
deriving DecidableEq, Repr

/-- Python indexing `x[n]` on a `timetable_source_id` value: a list
yields its n-th element, a string its n-th character (as a string);
`none` models the `IndexError` case. -/
def pyIndex : SourceId → Nat → Option String
  | .str s, n => (s.toList.get? n).map (fun c => String.mk [c])
  | .list l, n => l.get? n

/-! ### External effects -/

/-- Outcome of `session.login()`: classified by the exception class the
`webuntis` client raises, matching the `except` arms in
`validate_input`. -/
inductive LoginOutcome where
  | ok
  | badCredentials
  | connectionError
  | remoteError
  | otherError
deriving DecidableEq, Repr

/-- Oracle for the external calls `validate_input` makes.  A lookup
returning `some h` yields an opaque handle `h` for the found source
object; `none` means the call raised. -/
structure Env where
  resolveOk : String → Bool
  login : String → String → String → String → LoginOutcome
  getStudent : String → String → Option Nat
  klassenOk : Bool
  klasseFilter : SourceId → Option Nat
  getTeacher : String → String → Option Nat
  timetableOk : String → Nat → Bool

/-- The exceptions observable by `async_step_user`: the nine dedicated
classes raised by `validate_input` plus `uncaught` for any other
exception propagating out of it. -/
inductive VErr where
  | cannotConnect
  | invalidAuth
  | badCredentials
  | schoolNotFound
  | nameSplitError
  | studentNotFound
  | teacherNotFound
  | classNotFound
  | noRightsForTimetable
  | uncaught
deriving DecidableEq, Repr

/-- The external checks `validate_input` can attempt, in program order. -/
inductive Check where
  | resolve
  | login
  | studentLookup
  | klasseLookup
  | teacherLookup
  | timetableFetch
deriving DecidableEq, Repr

/-! ### `validate_input` -/

/-- The name-splitting of `validate_input` (lines 39-48): split on `","`;
if that does not give exactly two parts, split on `" "`; with exactly two
parts, each is stripped of spaces and capitalized, else the split fails
(`NameSplitError`). -/
def splitName (s : String) : Option (List String) :=
  let comma := pySplit ',' s
  let split := if comma.length = 2 then comma else pySplit ' ' s
  if split.length = 2 then
    some (split.map (fun p => pyCapitalize (stripSpaces p)))
  else
    Option.none

/-- The in-place normalization of `timetable_source_id` at the top of
`validate_input` (lines 36-48). -/
def normalizeName (inp : UserInput) : Except VErr UserInput :=
  if inp.timetable_source ∈ [("student"), ("teacher")] then
    match inp.timetable_source_id with
    | .str s =>
        match splitName s with
        | some parts => .ok { inp with timetable_source_id := .list parts }
        | Option.none => .error .nameSplitError
    | .list _ => .ok inp
  else
    .ok inp

/-- The source lookup of `validate_input` (lines 76-102), returning the
found handle, `none` when no branch assigns `source` (so the later
reference to `source` raises `UnboundLocalError`), or the branch's
error.  The returned trace lists the external lookups attempted. -/
def lookupSource (env : Env) (i : UserInput) :
    Except VErr (Option Nat) × List Check :=
  if i.timetable_source = ("student") then
    match pyIndex i.timetable_source_id 1, pyIndex i.timetable_source_id 0 with
    | some x, some y =>
        (match env.getStudent x y with
         | some h => .ok (some h)
         | Option.none => .error .studentNotFound,
         [.studentLookup])
    | _, _ => (.error .studentNotFound, [])
  else if i.timetable_source = ("klasse") then
    if env.klassenOk then
      (match env.klasseFilter i.timetable_source_id with
       | some h => .ok (some h)
       | Option.none => .error .classNotFound,
       [.klasseLookup])
    else
      (.error .uncaught, [.klasseLookup])
  else if i.timetable_source = ("teacher") then
    match pyIndex i.timetable_source_id 1, pyIndex i.timetable_source_id 0 with
    | some x, some y =>
        (match env.getTeacher x y with
         | some h => .ok (some h)
         | Option.none => .error .teacherNotFound,
         [.teacherLookup])
    | _, _ => (.error .teacherNotFound, [])
  else
    (.ok Option.none, [])

/-- `validate_input` (lines 28-111): returns the result (`ok` carries
the returned title, the submitted username), the user input as mutated
by the call, and the trace of external checks attempted. -/
def validateInput (env : Env) (inp : UserInput) :
    Except VErr String × UserInput × List Check :=
  match normalizeName inp with
  | .error e => (.error e, inp, [])
  | .ok i =>
    if !env.resolveOk i.server then
      (.error .cannotConnect, i, [.resolve])
    else
      match env.login i.server i.school i.username i.password with
      | .badCredentials => (.error .badCredentials, i, [.resolve, .login])
      | .connectionError => (.error .cannotConnect, i, [.resolve, .login])
      | .remoteError => (.error .schoolNotFound, i, [.resolve, .login])
      | .otherError => (.error .invalidAuth, i, [.resolve, .login])
      | .ok =>
        match lookupSource env i with
        | (.error e, tr) => (.error e, i, [Check.resolve, Check.login] ++ tr)
        | (.ok Option.none, tr) =>
            (.error .noRightsForTimetable, i, [Check.resolve, Check.login] ++ tr)
        | (.ok (some h), tr) =>
            if env.timetableOk i.timetable_source h then
              (.ok i.username, i,
               [Check.resolve, Check.login] ++ tr ++ [.timetableFetch])
            else
              (.error .noRightsForTimetable, i,
               [Check.resolve, Check.login] ++ tr ++ [.timetableFetch])

/-! ### `async_step_user` -/

/-- Python `s.startswith(("http://", "https://"))`. -/
def hasScheme (s : String) : Bool :=
  (("http://").toList.isPrefixOf s.toList) ||
    (("https://").toList.isPrefixOf s.toList)

/-- The netloc part: everything up to the first of `/`, `?`, `#`. -/
def netlocChars (l : List Char) : List Char :=
  l.takeWhile (fun c => !(c = '/' || c = '?' || c = '#'))

/-- Drop the scheme and `//` of a string known to start with `http://`
or `https://`. -/
def afterScheme (l : List Char) : List Char :=
  if ("http://").toList.isPrefixOf l then l.drop 7 else l.drop 8

/-- The server normalization of `async_step_user` (lines 154-156):
prepend `https://` unless the value starts with `http://` or
`https://`, then keep only `urlparse(...).netloc`. -/
def normalizeServer (s : String) : String :=
  let t := if hasScheme s then s else ("https://") ++ s
  String.mk (netlocChars (afterScheme t.toList))

/-- A single-quote character, for Python list `repr`. -/
def squote : String := String.mk ['\x27']

/-- Python `"{}".format` of a `timetable_source_id` value: a string
formats as itself, a list as its `repr`. -/
def pyFormatSourceId : SourceId → String
  | .str s => s
  | .list l =>
      ("[") ++ String.intercalate (", ")
        (l.map (fun x => squote ++ x ++ squote)) ++ ("]")

/-- The unique id of `async_step_user` (lines 144-149):
`"{username}@{timetable_source_id}@{school}"` lower-cased with spaces
replaced by dashes. -/
def uniqueId (inp : UserInput) : String :=
  spaceToDash (pyLower
    (inp.username ++ ("@") ++ pyFormatSourceId inp.timetable_source_id
      ++ ("@") ++ inp.school))

/-- The `except` chain of `async_step_user` (lines 158-181): exception
class to form error code. -/
def errorCodeOf : VErr → String
  | .cannotConnect => ("cannot_connect")
  | .invalidAuth => ("invalid_auth")
  | .badCredentials => ("bad_credentials")
  | .schoolNotFound => ("school_not_found")
  | .nameSplitError => ("name_split_error")
  | .studentNotFound => ("student_not_found")
  | .teacherNotFound => ("teacher_not_found")
  | .classNotFound => ("class_not_found")
  | .noRightsForTimetable => ("no_rights_for_timetable")
  | .uncaught => ("unknown")

/-- The list-to-string re-rendering of `timetable_source_id` before the
form is shown again (lines 189-195). -/
def joinSourceId : SourceId → SourceId
  | .list l => .str (String.intercalate (", ") l)
  | .str s => .str s

/-- Result of the user step: abort on duplicate unique id, a created
config entry, or the (re-)shown form with its defaults and errors. -/
inductive FlowResult where
  | abort
  | createEntry (title : String) (data : UserInput) (options : Dict)
  | showForm (defaults : Option UserInput) (errors : List (String × String))
deriving DecidableEq, Repr

/-- `async_step_user` (lines 136-197).  `alreadyConfigured` is the
host's registry of configured unique ids; `defaultOptions` is the
`DEFAULT_OPTIONS` constant imported from `const.py`. -/
def asyncStepUser (env : Env) (alreadyConfigured : String → Bool)
    (defaultOptions : Dict) (input : Option UserInput) : FlowResult :=
  match input with
  | Option.none => .showForm Option.none []
  | some ui =>
    if alreadyConfigured (uniqueId ui) then
      .abort
    else
      let ui1 := { ui with server := normalizeServer ui.server }
      match validateInput env ui1 with
      | (.ok title, ui2, _) => .createEntry title ui2 defaultOptions
      | (.error e, ui2, _) =>
          .showForm
            (some { ui2 with
                      timetable_source_id := joinSourceId ui2.timetable_source_id })
            [(("base"), errorCodeOf e)]

/-! ### The options flow -/

/-- Result of an options step: the (re-)shown form with its errors, or
a saved options record. -/
inductive OptionsStepResult where
  | form (errors : List (String × String))
  | saved (options : Dict)
deriving DecidableEq, Repr

/-- `OptionsFlowHandler.save` (lines 262-267): the submission is merged
over the stored options and the result becomes the new options
record. -/
def save (old new : Dict) : Dict := dupdate old new

/-- The `filter_description` post-processing in `async_step_filter`
(lines 280-285): split on `","`, drop empty parts, strip the rest.  The
truthy branch only ever sees a string value (the field comes from a
text selector), so other values pass through. -/
def splitDescription : Val → Val
  | .s s => .list (((pySplit ',' s).filter (fun x => !(x = ""))).map stripWS)
  | v => v

/-- The in-place rewriting of the filter submission in
`async_step_filter` (lines 271-285): default `filter_description`,
reset `filter_mode` when no subjects are selected, and force
`extended_timetable` plus split the description filter when one is
given. -/
def processFilter (ui : Dict) : Dict :=
  let u1 :=
    if (dget ui ("filter_description")).isSome then ui
    else dinsert ui ("filter_description") (.list [])
  let u2 :=
    if truthy (vget u1 ("filter_mode")) && !truthy (vget u1 ("filter_subjects"))
    then dinsert u1 ("filter_mode") (.s ("None"))
    else u1
  if truthy (vget u2 ("filter_description")) then
    dinsert (dinsert u2 ("extended_timetable") (.b true))
      ("filter_description") (splitDescription (vget u2 ("filter_description")))
  else u2

/-- `async_step_filter` (lines 269-330), submission path. -/
def asyncStepFilter (old : Dict) : Option Dict → OptionsStepResult
  | Option.none => .form []
  | some ui => .saved (save old (processFilter ui))

/-- The in-place rewriting of the calendar submission in
`async_step_calendar` (lines 336-339). -/
def processCalendar (ui : Dict) : Dict :=
  if vget ui ("calendar_description") = Val.s ("Lesson Info") then
    dinsert ui ("extended_timetable") (.b true)
  else ui

/-- `async_step_calendar` (lines 332-393), submission path. -/
def asyncStepCalendar (old : Dict) : Option Dict → OptionsStepResult
  | Option.none => .form []
  | some ui => .saved (save old (processCalendar ui))

/-- `async_step_backend` (lines 395-443), submission path: the
submission is rejected (form re-shown with the `extended_timetable`
error) when extended timetables are switched off while the stored
options still need them. -/
def asyncStepBackend (old : Dict) : Option Dict → OptionsStepResult
  | Option.none => .form []
  | some ui =>
    if !truthy (vget ui ("extended_timetable")) &&
        truthy (vget old ("filter_description")) then
      .form [(("base"), ("extended_timetable"))]
    else if vget ui ("extended_timetable") = Val.b false ∧
        vget old ("calendar_description") = Val.s ("Lesson Info") then
      .form [(("base"), ("extended_timetable"))]
    else
      .saved (save old ui)

/-- The in-place rewriting of the notify submission in
`async_step_notify` (lines 451-472): collect the truthy
`NOTIFY_OPTIONS` keys into `notify_options`, drop the individual keys,
and default `notify_entity_id`, `notify_target` and `notify_data`. -/
def processNotify (notifyOptions : List String) (ui : Dict) : Dict :=
  let chosen :=
    (ui.filter (fun kv => truthy kv.2 && notifyOptions.contains kv.1)).map
      Prod.fst
  let u1 := ui.filter (fun kv => !(notifyOptions.contains kv.1))
  let u2 := dinsert u1 ("notify_options") (.list chosen)
  let u3 :=
    if (dget u2 ("notify_entity_id")).isSome then u2
    else dinsert u2 ("notify_entity_id") (.s (""))
  let u4 :=
    if (dget u3 ("notify_target")).isSome then u3
    else dinsert u3 ("notify_target") (.dict [])
  if (dget u4 ("notify_data")).isSome then u4
  else dinsert u4 ("notify_data") (.dict [])

/-- `async_step_notify` (lines 445-473), submission path.
`notifyOptions` is the `NOTIFY_OPTIONS` constant imported from
`const.py`.  The `unknown_service` error value computed for an unknown
`notify_entity_id` is dead code — the step returns `save(...)`
unconditionally — so it does not appear in the result. -/
def asyncStepNotify (notifyOptions : List String) (old : Dict) :
    Option Dict → OptionsStepResult
  | Option.none => .form []
  | some ui => .saved (save old (processNotify notifyOptions ui))

/-! ### Dictionary lemmas -/

theorem dget_dinsert_self (d : Dict) (k : String) (v : Val) :
    dget (dinsert d k v) k = some v := by
  induction d with
  | nil => simp [dinsert, dget]
  | cons kv rest ih =>
      obtain ⟨k', v'⟩ := kv
      by_cases h : k' = k <;> simp [dinsert, dget, h, ih]

theorem dget_dinsert_ne (d : Dict) (k k' : String) (v : Val) (h : k ≠ k') :
    dget (dinsert d k v) k' = dget d k' := by
  induction d with
  | nil => simp [dinsert, dget, h]
  | cons kv rest ih =>
      obtain ⟨k0, v0⟩ := kv
      simp only [dinsert]
      by_cases h0 : k0 = k
      · rw [if_pos h0]
        have hk0 : ¬k0 = k' := by rw [h0]; exact h
        simp [dget, hk0]
      · rw [if_neg h0]
        by_cases h1 : k0 = k' <;> simp [dget, h1, ih]

theorem keys_dinsert (d : Dict) (k : String) (v : Val) :
    (dinsert d k v).map Prod.fst =
      if k ∈ d.map Prod.fst then d.map Prod.fst
      else d.map Prod.fst ++ [k] := by
  induction d with
  | nil => simp [dinsert]
  | cons kv rest ih =>
      obtain ⟨k0, v0⟩ := kv
      simp only [dinsert]
      by_cases h0 : k0 = k
      · rw [if_pos h0]
        subst h0
        simp
      · rw [if_neg h0, List.map_cons, List.map_cons, ih]
        have hne : ¬k = k0 := fun hc => h0 hc.symm
        by_cases h1 : k ∈ rest.map Prod.fst
        · simp [h1, List.mem_cons]
        · simp [h1, List.mem_cons, hne]

theorem mem_keys_dinsert (d : Dict) (k k' : String) (v : Val) :
    k' ∈ (dinsert d k v).map Prod.fst ↔ k' ∈ d.map Prod.fst ∨ k' = k := by
  rw [keys_dinsert]
  by_cases h1 : k ∈ d.map Prod.fst
  · rw [if_pos h1]
    constructor
    · exact Or.inl
    · rintro (hc | rfl)
      · exact hc
      · exact h1
  · rw [if_neg h1]
    simp [List.mem_append]

theorem nodup_keys_dinsert (d : Dict) (k : String) (v : Val)
    (h : (d.map Prod.fst).Nodup) : ((dinsert d k v).map Prod.fst).Nodup := by
  rw [keys_dinsert]
  by_cases h1 : k ∈ d.map Prod.fst
  · rwa [if_pos h1]
  · rw [if_neg h1]
    simp [List.nodup_append, h, h1]

theorem dget_eq_none_of_not_mem_keys (d : Dict) (k : String)
    (h : k ∉ d.map Prod.fst) : dget d k = Option.none := by
  induction d with
  | nil => rfl
  | cons kv rest ih =>
      obtain ⟨k0, v0⟩ := kv
      simp only [List.map_cons, List.mem_cons] at h
      push_neg at h
      have hne : ¬k0 = k := fun hc => h.1 hc.symm
      simp [dget, hne, ih h.2]

theorem dget_dupdate (old new : Dict) (h : (new.map Prod.fst).Nodup)
    (k : String) :
    dget (dupdate old new) k =
      match dget new k with
      | some v => some v
      | Option.none => dget old k := by
  induction new generalizing old with
  | nil => simp [dupdate, dget]
  | cons kv rest ih =>
      obtain ⟨k0, v0⟩ := kv
      simp only [List.map_cons, List.nodup_cons] at h
      have hstep : dupdate old ((k0, v0) :: rest) = dupdate (dinsert old k0 v0) rest := rfl
      rw [hstep, ih _ h.2]
      by_cases hk : k0 = k
      · subst hk
        have : dget rest k0 = Option.none :=
          dget_eq_none_of_not_mem_keys _ _ h.1
        simp [this, dget, dget_dinsert_self]
      · simp only [dget, if_neg hk]
        cases hrest : dget rest k with
        | some v => rfl
        | none => simp [dget_dinsert_ne _ _ _ _ hk]

theorem dget_filter_of_key_true (d : Dict) (p : String × Val → Bool)
    (k : String) (h : ∀ v, p (k, v) = true) :
    dget (d.filter p) k = dget d k := by
  induction d with
  | nil => rfl
  | cons kv rest ih =>
      obtain ⟨k0, v0⟩ := kv
      by_cases hk : k0 = k
      · subst hk
        simp [List.filter_cons, h v0, dget]
      · cases hp : p (k0, v0) <;> simp [List.filter_cons, hp, dget, hk, ih]

theorem dget_filter_of_key_false (d : Dict) (p : String × Val → Bool)
    (k : String) (h : ∀ v, p (k, v) = false) :
    dget (d.filter p) k = Option.none := by
  induction d with
  | nil => rfl
  | cons kv rest ih =>
      obtain ⟨k0, v0⟩ := kv
      by_cases hk : k0 = k
      · subst hk
        simp [List.filter_cons, h v0, ih]
      · cases hp : p (k0, v0) <;> simp [List.filter_cons, hp, dget, hk, ih]

theorem nodup_keys_filter (d : Dict) (p : String × Val → Bool)
    (h : (d.map Prod.fst).Nodup) : ((d.filter p).map Prod.fst).Nodup :=
  List.Nodup.sublist (List.Sublist.map Prod.fst (List.filter_sublist d)) h

theorem dget_some_iff_mem (d : Dict) (h : (d.map Prod.fst).Nodup)
    (k : String) (v : Val) : dget d k = some v ↔ (k, v) ∈ d := by
  induction d with
  | nil => simp [dget]
  | cons kv rest ih =>
      obtain ⟨k0, v0⟩ := kv
      simp only [List.map_cons, List.nodup_cons] at h
      simp only [dget, List.mem_cons]
      by_cases hk : k0 = k
      · subst hk
        rw [if_pos rfl]
        constructor
        · intro hv
          left
          rw [Option.some_inj] at hv
          rw [hv]
        · rintro (hc | hc)
          · have : v = v0 := (Prod.mk.injEq _ _ _ _ ▸ hc).2
            rw [this]
          · exact absurd (List.mem_map_of_mem Prod.fst hc) h.1
      · rw [if_neg hk, ih h.2]
        constructor
        · exact Or.inr
        · rintro (hc | hc)
          · exact absurd (congrArg Prod.fst hc).symm hk
          · exact hc

/-! ### Character lemmas -/

theorem char_toNat_ofNat (n : Nat) (h : n.isValidChar) :
    (Char.ofNat n).toNat = n := by
  simp [Char.ofNat, h, Char.toNat, Char.ofNatAux, UInt32.toNat,
    BitVec.toNat_ofNatLt]

theorem toNat_pyLowerChar (c : Char) :
    (pyLowerChar c).toNat =
      if 65 ≤ c.toNat ∧ c.toNat ≤ 90 then c.toNat + 32 else c.toNat := by
  unfold pyLowerChar
  by_cases h : 65 ≤ c.toNat ∧ c.toNat ≤ 90
  · have hv : (c.toNat + 32).isValidChar := Or.inl (by omega)
    simp [h, char_toNat_ofNat _ hv]
  · simp [h, Char.ofNat_toNat]

theorem pyLowerChar_not_upper (c : Char) :
    ¬(65 ≤ (pyLowerChar c).toNat ∧ (pyLowerChar c).toNat ≤ 90) := by
  rw [toNat_pyLowerChar]
  split <;> omega

/-! ### Claim C1 -/

/-- C1: every validation failure surfaced by the setup step carries
exactly one error code drawn from the flat enumeration, and each
validation exception class is mapped to its corresponding code and to
no other by the `except` chain of `async_step_user`. -/
theorem C1_error_code_mapping :
    (∀ e : VErr, errorCodeOf e ∈
      [("cannot_connect"), ("invalid_auth"), ("bad_credentials"),
       ("school_not_found"), ("name_split_error"), ("student_not_found"),
       ("teacher_not_found"), ("class_not_found"),
       ("no_rights_for_timetable"), ("unknown")]) ∧
    (∀ env cfg opts ui d errs,
      asyncStepUser env cfg opts (some ui) = .showForm (some d) errs →
      ∃ e : VErr, errs = [(("base"), errorCodeOf e)]) ∧
    errorCodeOf .cannotConnect = ("cannot_connect") ∧
    errorCodeOf .invalidAuth = ("invalid_auth") ∧
    errorCodeOf .badCredentials = ("bad_credentials") ∧
    errorCodeOf .schoolNotFound = ("school_not_found") ∧
    errorCodeOf .nameSplitError = ("name_split_error") ∧
    errorCodeOf .studentNotFound = ("student_not_found") ∧
    errorCodeOf .teacherNotFound = ("teacher_not_found") ∧
    errorCodeOf .classNotFound = ("class_not_found") ∧
    errorCodeOf .noRightsForTimetable = ("no_rights_for_timetable") ∧
    errorCodeOf .uncaught = ("unknown") := by
  refine ⟨fun e => by cases e <;> decide, ?_, rfl, rfl, rfl, rfl, rfl, rfl,
    rfl, rfl, rfl, rfl⟩
  intro env cfg opts ui d errs h
  simp only [asyncStepUser] at h
  cases hcfg : cfg (uniqueId ui) with
  | true => simp [hcfg] at h
  | false =>
      rw [hcfg] at h
      simp only [Bool.false_eq_true, if_false] at h
      rcases hv : validateInput env { ui with server := normalizeServer ui.server }
        with ⟨r, i2, tr⟩
      rw [hv] at h
      cases r with
      | ok t => simp at h
      | error e =>
          simp only [FlowResult.showForm.injEq] at h
          exact ⟨e, h.2.symm⟩

/-! ### Claim C4 -/

/-- C4: saving an options submission merges it over the stored record:
every submitted key takes its submitted value, and every stored key
absent from the submission keeps its previous value. -/
theorem C4_save_merges (old new : Dict) (h : (new.map Prod.fst).Nodup)
    (k : String) :
    (∀ v, dget new k = some v → dget (save old new) k = some v) ∧
    (dget new k = Option.none → dget (save old new) k = dget old k) := by
  have hd := dget_dupdate old new h k
  constructor
  · intro v hv
    rw [save, hd, hv]
  · intro hv
    rw [save, hd, hv]

/-- Witness for C4 at a concrete store and submission. -/
theorem C4_save_merges_witness :
    (([(("a"), Val.s ("1")), (("b"), Val.b true)] : Dict).map Prod.fst).Nodup ∧
    dget (save [(("a"), Val.s ("0")), (("c"), Val.s ("z"))]
      [(("a"), Val.s ("1")), (("b"), Val.b true)]) ("a") = some (Val.s ("1")) ∧
    dget (save [(("a"), Val.s ("0")), (("c"), Val.s ("z"))]
      [(("a"), Val.s ("1")), (("b"), Val.b true)]) ("c") =
      dget [(("a"), Val.s ("0")), (("c"), Val.s ("z"))] ("c") := by
  refine ⟨by decide, ?_, ?_⟩
  · exact (C4_save_merges _ _ (by decide) _).1 _ (by decide)
  · exact (C4_save_merges _ _ (by decide) _).2 (by decide)

/-! ### Claim C8 -/

/-- `urlparse(s).netloc` for a string starting with `http://` or
`https://`. -/
def netlocOf (s : String) : String :=
  String.mk (netlocChars (afterScheme s.toList))

theorem mem_netlocChars {l : List Char} {c : Char} (h : c ∈ netlocChars l) :
    ¬(c = '/' ∨ c = '?' ∨ c = '#') := by
  intro hor
  have hp := List.mem_takeWhile_imp h
  rcases hor with rfl | rfl | rfl <;> simp at hp

theorem scheme_prefix_netloc (l pre : List Char) (hmem : '/' ∈ pre) :
    pre.isPrefixOf (netlocChars l) = false := by
  cases hp : pre.isPrefixOf (netlocChars l)
  · rfl
  · exfalso
    have hpre := List.isPrefixOf_iff_prefix.mp hp
    exact (mem_netlocChars (hpre.subset hmem)) (Or.inl rfl)

theorem hasScheme_mk_netloc (l : List Char) :
    hasScheme (String.mk (netlocChars l)) = false := by
  unfold hasScheme
  rw [show (String.mk (netlocChars l)).toList = netlocChars l from rfl]
  rw [scheme_prefix_netloc l (("http://").toList) (by decide),
    scheme_prefix_netloc l (("https://").toList) (by decide)]
  rfl

theorem afterScheme_https (l : List Char) :
    afterScheme ((("https://").toList) ++ l) = l := by
  unfold afterScheme
  rw [show (("http://").toList).isPrefixOf ((("https://").toList) ++ l) = false
    from rfl]
  simp only [Bool.false_eq_true, if_false]
  rw [show (8 : Nat) = (("https://").toList).length from rfl]
  exact List.drop_left _ _

theorem netlocChars_idem (l : List Char) :
    netlocChars (netlocChars l) = netlocChars l := by
  unfold netlocChars
  generalize (fun c => !(c = '/' || c = '?' || c = '#')) = p
  induction l with
  | nil => rfl
  | cons c rest ih => cases h : p c <;> simp [List.takeWhile_cons, h, ih]

/-- C8: the setup step's server normalization prepends `https://` when
no scheme is present and keeps only the netloc, the result contains no
path/query/fragment delimiter, and the normalization is idempotent. -/
theorem C8_server_normalization :
    (∀ s, hasScheme s = false →
      normalizeServer s = netlocOf (("https://") ++ s)) ∧
    (∀ s, hasScheme s = true → normalizeServer s = netlocOf s) ∧
    (∀ s c, c ∈ (normalizeServer s).toList → ¬(c = '/' ∨ c = '?' ∨ c = '#')) ∧
    (∀ s, normalizeServer (normalizeServer s) = normalizeServer s) := by
  have hshape : ∀ s, ∃ l, normalizeServer s = String.mk (netlocChars l) := by
    intro s
    unfold normalizeServer
    cases h : hasScheme s <;> simp only [h, Bool.false_eq_true, if_false,
      if_true] <;> exact ⟨_, rfl⟩
  refine ⟨?_, ?_, ?_, ?_⟩
  · intro s h
    unfold normalizeServer
    rw [h]
    rfl
  · intro s h
    unfold normalizeServer
    rw [h]
    rfl
  · intro s c hc
    obtain ⟨l, hl⟩ := hshape s
    rw [hl] at hc
    exact mem_netlocChars hc
  · intro s
    obtain ⟨l, hl⟩ := hshape s
    rw [hl]
    unfold normalizeServer
    rw [hasScheme_mk_netloc l]
    simp only [Bool.false_eq_true, if_false]
    rw [show ((("https://") ++ String.mk (netlocChars l)).toList)
        = (("https://").toList) ++ netlocChars l from rfl]
    rw [afterScheme_https, netlocChars_idem]

/-- Witness for C8 at concrete server strings. -/
theorem C8_server_normalization_witness :
    hasScheme ("example.com/x") = false ∧
    normalizeServer ("example.com/x") = netlocOf (("https://") ++ ("example.com/x")) ∧
    hasScheme ("http://a.b?q") = true ∧
    normalizeServer ("http://a.b?q") = netlocOf ("http://a.b?q") :=
  ⟨by decide, C8_server_normalization.1 _ (by decide), by decide,
    C8_server_normalization.2.1 _ (by decide)⟩

/-! ### Claim C9 -/

/-- C9: the unique id depends only on username, timetable source id and
school, via lower-casing and space-to-dash replacement; it never
contains an ASCII uppercase letter or a space; and a submission whose
unique id is already configured aborts. -/
theorem C9_unique_id :
    (∀ i : UserInput, uniqueId i =
      spaceToDash (pyLower
        (i.username ++ ("@") ++ pyFormatSourceId i.timetable_source_id
          ++ ("@") ++ i.school))) ∧
    (∀ i1 i2 : UserInput, i1.username = i2.username →
      i1.timetable_source_id = i2.timetable_source_id →
      i1.school = i2.school → uniqueId i1 = uniqueId i2) ∧
    (∀ (i : UserInput) (c : Char), c ∈ (uniqueId i).toList →
      ¬(65 ≤ c.toNat ∧ c.toNat ≤ 90) ∧ ¬(c = ' ')) ∧
    (∀ env cfg opts ui, cfg (uniqueId ui) = true →
      asyncStepUser env cfg opts (some ui) = .abort) := by
  refine ⟨fun i => rfl, ?_, ?_, ?_⟩
  · intro i1 i2 h1 h2 h3
    unfold uniqueId
    rw [h1, h2, h3]
  · intro i c hc
    have hmem : ∃ a, c = (fun x => if x = ' ' then '-' else x) (pyLowerChar a) := by
      unfold uniqueId spaceToDash pyLower at hc
      rw [show (String.mk ((String.mk
          ((i.username ++ ("@") ++ pyFormatSourceId i.timetable_source_id
            ++ ("@") ++ i.school).toList.map pyLowerChar)).toList.map
          (fun c => if c = ' ' then '-' else c))).toList
        = ((i.username ++ ("@") ++ pyFormatSourceId i.timetable_source_id
            ++ ("@") ++ i.school).toList.map pyLowerChar).map
          (fun c => if c = ' ' then '-' else c) from rfl] at hc
      rw [List.map_map] at hc
      obtain ⟨a, _, ha⟩ := List.mem_map.mp hc
      exact ⟨a, ha.symm⟩
    obtain ⟨a, rfl⟩ := hmem
    have hval : (fun x => if x = ' ' then '-' else x) (pyLowerChar a)
        = if pyLowerChar a = ' ' then '-' else pyLowerChar a := rfl
    rw [hval]
    by_cases hsp : pyLowerChar a = ' '
    · rw [if_pos hsp]
      exact ⟨by decide, by decide⟩
    · rw [if_neg hsp]
      exact ⟨pyLowerChar_not_upper a, hsp⟩
  · intro env cfg opts ui h
    simp [asyncStepUser, h]

/-- An oracle on which every external check succeeds. -/
def envOk : Env :=
  { resolveOk := fun _ => true
    login := fun _ _ _ _ => .ok
    getStudent := fun _ _ => some 1
    klassenOk := true
    klasseFilter := fun _ => some 1
    getTeacher := fun _ _ => some 1
    timetableOk := fun _ _ => true }

/-- An oracle on which hostname resolution fails. -/
def envNoResolve : Env := { envOk with resolveOk := fun _ => false }

/-- A concrete class-timetable submission. -/
def uiKlasse : UserInput :=
  { server := ("https://example.com/path")
    school := ("My School")
    username := ("User A")
    password := ("pw")
    timetable_source := ("klasse")
    timetable_source_id := .str ("1a") }

/-- Witness for C1: the form produced by a concrete failing submission
carries exactly the `cannot_connect` code. -/
theorem C1_error_code_mapping_witness :
    errorCodeOf .cannotConnect ∈
      [("cannot_connect"), ("invalid_auth"), ("bad_credentials"),
       ("school_not_found"), ("name_split_error"), ("student_not_found"),
       ("teacher_not_found"), ("class_not_found"),
       ("no_rights_for_timetable"), ("unknown")] ∧
    (∃ e : VErr, [(("base"), ("cannot_connect"))]
      = [(("base"), errorCodeOf e)]) := by
  refine ⟨C1_error_code_mapping.1 .cannotConnect, ?_⟩
  exact C1_error_code_mapping.2.1 envNoResolve (fun _ => false) [] uiKlasse
    { uiKlasse with server := ("example.com") }
    [(("base"), ("cannot_connect"))] (by decide)

/-- Witness for C9: determinism over the three fields, the character
property, and the abort at concrete inputs. -/
theorem C9_unique_id_witness :
    uniqueId uiKlasse = uniqueId { uiKlasse with password := ("other") } ∧
    (('u' ∈ (uniqueId uiKlasse).toList) ∧
      ¬(65 ≤ ('u').toNat ∧ ('u').toNat ≤ 90) ∧ ¬(('u') = ' ')) ∧
    asyncStepUser envOk (fun _ => true) [] (some uiKlasse) = .abort := by
  refine ⟨C9_unique_id.2.1 _ _ rfl rfl rfl, ⟨by decide, ?_⟩,
    C9_unique_id.2.2.2 envOk (fun _ => true) [] uiKlasse rfl⟩
  exact C9_unique_id.2.2.1 uiKlasse 'u' (by decide)

/-! ### `validate_input` helper lemmas -/

theorem splitName_none_iff (s : String) :
    splitName s = Option.none ↔
      (pySplit ',' s).length ≠ 2 ∧ (pySplit ' ' s).length ≠ 2 := by
  unfold splitName
  by_cases hc : (pySplit ',' s).length = 2
  · simp [hc]
  · by_cases hs : (pySplit ' ' s).length = 2 <;> simp [hc, hs]

theorem splitName_picked (s : String) (a b : String)
    (hp : (if (pySplit ',' s).length = 2 then pySplit ',' s
           else pySplit ' ' s) = [a, b]) :
    splitName s = some [pyCapitalize (stripSpaces a),
      pyCapitalize (stripSpaces b)] := by
  simp only [splitName]
  rw [hp]
  simp

theorem normalizeName_error_iff (inp : UserInput) (e : VErr) :
    normalizeName inp = .error e ↔
      e = .nameSplitError ∧
      inp.timetable_source ∈ [("student"), ("teacher")] ∧
      ∃ s, inp.timetable_source_id = .str s ∧ splitName s = Option.none := by
  unfold normalizeName
  by_cases hk : inp.timetable_source ∈ [("student"), ("teacher")]
  · rw [if_pos hk]
    cases hid : inp.timetable_source_id with
    | str s =>
        simp only []
        cases hsp : splitName s with
        | some parts => simp [hsp]
        | none =>
            simp only [hsp]
            constructor
            · intro h
              injection h with h
              exact ⟨h.symm, hk, s, rfl, hsp⟩
            · rintro ⟨rfl, -, s', hs', hsp'⟩
              rfl
    | list l => simp
  · rw [if_neg hk]
    simp [hk]

theorem normalizeName_ok_cases (inp i : UserInput)
    (hn : normalizeName inp = .ok i) :
    i = inp ∨ ∃ s parts, inp.timetable_source_id = .str s ∧
      splitName s = some parts ∧
      i = { inp with timetable_source_id := .list parts } := by
  unfold normalizeName at hn
  by_cases hk : inp.timetable_source ∈ [("student"), ("teacher")]
  · rw [if_pos hk] at hn
    cases hid : inp.timetable_source_id with
    | str s =>
        rw [hid] at hn
        try simp only [] at hn
        cases hsp : splitName s with
        | some parts =>
            rw [hsp] at hn
            try simp only [] at hn
            injection hn with hn
            right
            exact ⟨s, parts, rfl, hsp, hn.symm⟩
        | none =>
            rw [hsp] at hn
            try simp only [] at hn
            injection hn
    | list l =>
        rw [hid] at hn
        try simp only [] at hn
        injection hn with hn
        left
        exact hn.symm
  · rw [if_neg hk] at hn
    injection hn with hn
    left
    exact hn.symm

theorem normalizeName_ok_fields (inp i : UserInput)
    (hn : normalizeName inp = .ok i) :
    i.server = inp.server ∧ i.school = inp.school ∧
    i.username = inp.username ∧ i.password = inp.password ∧
    i.timetable_source = inp.timetable_source := by
  rcases normalizeName_ok_cases inp i hn with rfl | ⟨s, parts, hid, hsp, rfl⟩
  · exact ⟨rfl, rfl, rfl, rfl, rfl⟩
  · exact ⟨rfl, rfl, rfl, rfl, rfl⟩

theorem normalizeName_ok_id_str (inp i : UserInput) (s : String)
    (hn : normalizeName inp = .ok i)
    (hk : inp.timetable_source ∈ [("student"), ("teacher")])
    (hid : inp.timetable_source_id = .str s) :
    ∃ parts, splitName s = some parts ∧
      i.timetable_source_id = .list parts := by
  unfold normalizeName at hn
  rw [if_pos hk, hid] at hn
  try simp only [] at hn
  cases hsp : splitName s with
  | some parts =>
      rw [hsp] at hn
      try simp only [] at hn
      injection hn with hn
      exact ⟨parts, rfl, by rw [← hn]⟩
  | none =>
      rw [hsp] at hn
      try simp only [] at hn
      injection hn

theorem lookupSource_error_ne (env : Env) (i : UserInput) (e : VErr)
    (tr : List Check) (h : lookupSource env i = (.error e, tr)) :
    e ≠ .nameSplitError := by
  unfold lookupSource at h
  split_ifs at h <;> (repeat' split at h) <;>
    simp only [Prod.mk.injEq, Except.error.injEq] at h <;>
    first
      | exact Except.noConfusion h.1
      | (rintro rfl; exact absurd h.1 (by decide))

theorem validateInput_mut_error (env : Env) (inp : UserInput) (e : VErr)
    (hn : normalizeName inp = .error e) :
    validateInput env inp = (.error e, inp, []) := by
  unfold validateInput
  rw [hn]

theorem validateInput_mut_ok (env : Env) (inp i : UserInput)
    (hn : normalizeName inp = .ok i) :
    (validateInput env inp).2.1 = i := by
  unfold validateInput
  rw [hn]
  try simp only []
  (repeat' split) <;> rfl

theorem validateInput_ok_spec (env : Env) (inp : UserInput) (t : String)
    (i2 : UserInput) (tr : List Check)
    (hv : validateInput env inp = (.ok t, i2, tr)) :
    normalizeName inp = .ok i2 ∧ t = i2.username := by
  unfold validateInput at hv
  cases hn : normalizeName inp <;> rw [hn] at hv <;> try simp only [] at hv
  case error e =>
      simp only [Prod.mk.injEq] at hv
      exact Except.noConfusion hv.1
  case ok i =>
      have hkey : i = i2 ∧ t = i.username := by
        clear hn
        (repeat' split at hv) <;> simp only [Prod.mk.injEq] at hv
        all_goals
          first
            | exact Except.noConfusion hv.1
            | exact ⟨hv.2.1, by injection hv.1 with h; exact h.symm⟩
      obtain ⟨h1, h2⟩ := hkey
      subst h1
      exact ⟨rfl, h2⟩

theorem validateInput_error_spec (env : Env) (inp : UserInput) (e : VErr)
    (i2 : UserInput) (tr : List Check)
    (hv : validateInput env inp = (.error e, i2, tr)) :
    (normalizeName inp = .error e ∧ i2 = inp ∧ tr = []) ∨
      normalizeName inp = .ok i2 := by
  unfold validateInput at hv
  cases hn : normalizeName inp <;> rw [hn] at hv <;> try simp only [] at hv
  case error e0 =>
      simp only [Prod.mk.injEq, Except.error.injEq] at hv
      left
      rw [hv.1]
      exact ⟨rfl, hv.2.1.symm, hv.2.2.symm⟩
  case ok i =>
      right
      (repeat' split at hv) <;> simp only [Prod.mk.injEq] at hv
      all_goals
        first
          | exact Except.noConfusion hv.1
          | exact congrArg Except.ok hv.2.1

theorem validateInput_error_nameSplit (env : Env) (inp : UserInput)
    (i2 : UserInput) (tr : List Check)
    (hv : validateInput env inp = (.error .nameSplitError, i2, tr)) :
    normalizeName inp = .error .nameSplitError ∧ i2 = inp ∧ tr = [] := by
  unfold validateInput at hv
  cases hn : normalizeName inp <;> rw [hn] at hv <;> try simp only [] at hv
  case error e0 =>
      simp only [Prod.mk.injEq, Except.error.injEq] at hv
      rw [hv.1]
      exact ⟨rfl, hv.2.1.symm, hv.2.2.symm⟩
  case ok i =>
      exfalso
      cases hres : env.resolveOk i.server <;> rw [hres] at hv <;>
        try simp at hv
      cases hlog : env.login i.server i.school i.username i.password <;>
        rw [hlog] at hv <;> try simp at hv
      rcases hls : lookupSource env i with ⟨rls, trls⟩
      rw [hls] at hv
      cases rls with
      | error e' =>
          try simp only [] at hv
          simp only [Prod.mk.injEq, Except.error.injEq] at hv
          exact lookupSource_error_ne env i e' trls hls hv.1
      | ok o =>
          try simp only [] at hv
          cases o with
          | none => simp at hv
          | some hdl =>
              try simp only [] at hv
              cases htt : env.timetableOk i.timetable_source hdl <;>
                rw [htt] at hv <;> simp at hv

/-- Reduction of `async_step_user` once the unique id is fresh and the
result of `validate_input` is known. -/
theorem asyncStepUser_eq (env : Env) (cfg : String → Bool) (opts : Dict)
    (ui : UserInput) (r : Except VErr String) (i2 : UserInput)
    (tr : List Check) (hcfg : cfg (uniqueId ui) = false)
    (hv : validateInput env { ui with server := normalizeServer ui.server }
      = (r, i2, tr)) :
    asyncStepUser env cfg opts (some ui) =
      match r with
      | .ok t => .createEntry t i2 opts
      | .error e =>
          .showForm (some { i2 with
            timetable_source_id := joinSourceId i2.timetable_source_id })
            [(("base"), errorCodeOf e)] := by
  simp only [asyncStepUser, hcfg, Bool.false_eq_true, if_false, hv]
  cases r <;> rfl

/-! ### Claim C2 -/

/-- C2: when `validate_input` succeeds, the setup step creates a config
entry titled with the submitted username, whose data is the normalized
user input and whose options are `DEFAULT_OPTIONS`. -/
theorem C2_entry_creation (env : Env) (cfg : String → Bool) (opts : Dict)
    (ui : UserInput) (t : String) (i2 : UserInput) (tr : List Check)
    (hcfg : cfg (uniqueId ui) = false)
    (hv : validateInput env { ui with server := normalizeServer ui.server }
      = (.ok t, i2, tr)) :
    asyncStepUser env cfg opts (some ui) = .createEntry ui.username i2 opts ∧
    i2.server = normalizeServer ui.server ∧ i2.school = ui.school ∧
    i2.username = ui.username ∧ i2.password = ui.password ∧
    i2.timetable_source = ui.timetable_source := by
  have hspec := validateInput_ok_spec env _ t i2 tr hv
  have hfields := normalizeName_ok_fields _ i2 hspec.1
  have hstep := asyncStepUser_eq env cfg opts ui _ i2 tr hcfg hv
  refine ⟨?_, hfields.1, hfields.2.1, hfields.2.2.1, hfields.2.2.2.1,
    hfields.2.2.2.2⟩
  rw [hstep]
  try simp only []
  rw [hspec.2, hfields.2.2.1]

/-- Witness for C2: a fully successful concrete class submission. -/
theorem C2_entry_creation_witness :
    validateInput envOk { uiKlasse with server := normalizeServer uiKlasse.server }
      = (.ok ("User A"), { uiKlasse with server := ("example.com") },
         [.resolve, .login, .klasseLookup, .timetableFetch]) ∧
    asyncStepUser envOk (fun _ => false) [] (some uiKlasse) =
      .createEntry ("User A") { uiKlasse with server := ("example.com") } [] := by
  refine ⟨rfl, ?_⟩
  exact (C2_entry_creation envOk (fun _ => false) [] uiKlasse ("User A")
    { uiKlasse with server := ("example.com") }
    [.resolve, .login, .klasseLookup, .timetableFetch] rfl rfl).1

/-! ### Claim C3 -/

/-- C3: `validate_input` raises `NameSplitError` exactly when the
source kind is student/teacher and the submitted id string splits into
two parts neither on `","` nor on `" "`; when the split yields two
parts, the id is replaced by the stripped-and-capitalized pair, and a
`NameSplitError` is raised before any external check is attempted. -/
theorem C3_name_split (env : Env) (inp : UserInput) :
    ((validateInput env inp).1 = .error .nameSplitError ↔
      (inp.timetable_source ∈ [("student"), ("teacher")] ∧
       ∃ s, inp.timetable_source_id = .str s ∧
         (pySplit ',' s).length ≠ 2 ∧ (pySplit ' ' s).length ≠ 2)) ∧
    (∀ s a b, inp.timetable_source ∈ [("student"), ("teacher")] →
      inp.timetable_source_id = .str s →
      (if (pySplit ',' s).length = 2 then pySplit ',' s
       else pySplit ' ' s) = [a, b] →
      (validateInput env inp).2.1.timetable_source_id =
        .list [pyCapitalize (stripSpaces a), pyCapitalize (stripSpaces b)]) ∧
    ((validateInput env inp).1 = .error .nameSplitError →
      (validateInput env inp).2.2 = []) := by
  refine ⟨⟨?_, ?_⟩, ?_, ?_⟩
  · intro h
    rcases hveq : validateInput env inp with ⟨r, i2, tr⟩
    rw [hveq] at h
    simp only [] at h
    subst h
    have hns := validateInput_error_nameSplit env inp i2 tr hveq
    obtain ⟨-, hk, s, hid, hsp⟩ := (normalizeName_error_iff inp _).mp hns.1
    exact ⟨hk, s, hid, (splitName_none_iff s).mp hsp⟩
  · rintro ⟨hk, s, hid, h1, h2⟩
    have hsp : splitName s = Option.none := (splitName_none_iff s).mpr ⟨h1, h2⟩
    have hn : normalizeName inp = .error .nameSplitError :=
      (normalizeName_error_iff inp _).mpr ⟨rfl, hk, s, hid, hsp⟩
    rw [validateInput_mut_error env inp _ hn]
  · intro s a b hk hid hp
    have hsplit := splitName_picked s a b hp
    have hn : normalizeName inp = .ok
        { inp with timetable_source_id :=
            SourceId.list [pyCapitalize (stripSpaces a),
              pyCapitalize (stripSpaces b)] } := by
      unfold normalizeName
      rw [if_pos hk, hid]
      try simp only []
      rw [hsplit]
    rw [validateInput_mut_ok env inp _ hn]
  · intro h
    rcases hveq : validateInput env inp with ⟨r, i2, tr⟩
    rw [hveq] at h
    simp only [] at h
    subst h
    have hns := validateInput_error_nameSplit env inp i2 tr hveq
    exact hns.2.2

/-- A concrete student submission whose id splits on `", "`. -/
def uiStudent : UserInput :=
  { server := ("example.com")
    school := ("s")
    username := ("u")
    password := ("p")
    timetable_source := ("student")
    timetable_source_id := .str ("muster, max") }

/-- Witness for C3: the concrete split and the concrete failure. -/
theorem C3_name_split_witness :
    (validateInput envOk uiStudent).2.1.timetable_source_id =
      .list [pyCapitalize (stripSpaces ("muster")),
        pyCapitalize (stripSpaces (" max"))] ∧
    (validateInput envOk
      { uiStudent with timetable_source_id := .str ("mumax") }).1 =
      .error .nameSplitError ∧
    (validateInput envOk
      { uiStudent with timetable_source_id := .str ("mumax") }).2.2 = [] := by
  have hbad := ((C3_name_split envOk
    { uiStudent with timetable_source_id := .str ("mumax") }).1).mpr
    ⟨by decide, ("mumax"), rfl, by decide, by decide⟩
  refine ⟨?_, hbad, ?_⟩
  · exact (C3_name_split envOk uiStudent).2.1 ("muster, max") ("muster")
      (" max") (by decide) rfl (by decide)
  · exact (C3_name_split envOk
      { uiStudent with timetable_source_id := .str ("mumax") }).2.2 hbad

/-! ### Claim C6 -/

/-- C6 counterexample: on a failed validation the re-shown form does
not carry the server value as previously entered — the entered
`https://example.com/path` is re-rendered as the normalized
`example.com`. -/
theorem C6_counterexample :
    asyncStepUser envNoResolve (fun _ => false) [] (some uiKlasse) =
      .showForm (some { uiKlasse with server := ("example.com") })
        [(("base"), ("cannot_connect"))] ∧
    ¬(("example.com") = uiKlasse.server) := by
  exact ⟨by decide, by decide⟩

/-- C6 as amended: on a validation error no entry is created; the form
is re-shown with exactly one error code and the submitted values after
server normalization, a list-valued `timetable_source_id` re-rendered
as a comma-separated string. -/
theorem C6_error_redisplay (env : Env) (cfg : String → Bool) (opts : Dict)
    (ui : UserInput) (e : VErr) (i2 : UserInput) (tr : List Check)
    (hcfg : cfg (uniqueId ui) = false)
    (hv : validateInput env { ui with server := normalizeServer ui.server }
      = (.error e, i2, tr)) :
    asyncStepUser env cfg opts (some ui) =
      .showForm (some { i2 with
          timetable_source_id := joinSourceId i2.timetable_source_id })
        [(("base"), errorCodeOf e)] ∧
    i2.server = normalizeServer ui.server ∧ i2.school = ui.school ∧
    i2.username = ui.username ∧ i2.password = ui.password ∧
    i2.timetable_source = ui.timetable_source ∧
    (∀ l, i2.timetable_source_id = .list l →
      joinSourceId i2.timetable_source_id =
        .str (String.intercalate (", ") l)) ∧
    (∀ s, i2.timetable_source_id = .str s →
      joinSourceId i2.timetable_source_id = .str s) := by
  have hstep := asyncStepUser_eq env cfg opts ui _ i2 tr hcfg hv
  have hfields : i2.server = normalizeServer ui.server ∧
      i2.school = ui.school ∧ i2.username = ui.username ∧
      i2.password = ui.password ∧ i2.timetable_source = ui.timetable_source := by
    rcases validateInput_error_spec env _ e i2 tr hv with ⟨-, hi2, -⟩ | hn
    · rw [hi2]
      exact ⟨rfl, rfl, rfl, rfl, rfl⟩
    · exact normalizeName_ok_fields _ i2 hn
  refine ⟨?_, hfields.1, hfields.2.1, hfields.2.2.1, hfields.2.2.2.1,
    hfields.2.2.2.2, ?_, ?_⟩
  · rw [hstep]
  · intro l hl
    rw [hl]
    rfl
  · intro s hs
    rw [hs]
    rfl

/-- Witness for C6 at a concrete failing submission. -/
theorem C6_error_redisplay_witness :
    validateInput envNoResolve
      { uiKlasse with server := normalizeServer uiKlasse.server }
      = (.error .cannotConnect, { uiKlasse with server := ("example.com") },
         [.resolve]) ∧
    asyncStepUser envNoResolve (fun _ => false) [] (some uiKlasse) =
      .showForm (some { uiKlasse with server := ("example.com") })
        [(("base"), errorCodeOf .cannotConnect)] := by
  refine ⟨rfl, ?_⟩
  have h := (C6_error_redisplay envNoResolve (fun _ => false) [] uiKlasse
    .cannotConnect { uiKlasse with server := ("example.com") } [.resolve]
    rfl rfl).1
  exact h

/-! ### Options-step lemmas -/

theorem vget_dinsert_ne (d : Dict) (k k' : String) (v : Val) (h : k ≠ k') :
    vget (dinsert d k v) k' = vget d k' := by
  unfold vget
  rw [dget_dinsert_ne _ _ _ _ h]

theorem dget_processFilter_mode (ui : Dict)
    (h1 : truthy (vget ui ("filter_mode")) = true)
    (h2 : truthy (vget ui ("filter_subjects")) = false) :
    dget (processFilter ui) ("filter_mode") = some (Val.s ("None")) := by
  simp only [processFilter]
  generalize hu1 : (if (dget ui ("filter_description")).isSome = true then ui
    else dinsert ui ("filter_description") (Val.list [])) = u1
  have hfm : vget u1 ("filter_mode") = vget ui ("filter_mode") := by
    rw [← hu1]
    by_cases hA : (dget ui ("filter_description")).isSome = true
    · rw [if_pos hA]
    · rw [if_neg hA, vget_dinsert_ne _ _ _ _ (by decide)]
  have hfs : vget u1 ("filter_subjects") = vget ui ("filter_subjects") := by
    rw [← hu1]
    by_cases hA : (dget ui ("filter_description")).isSome = true
    · rw [if_pos hA]
    · rw [if_neg hA, vget_dinsert_ne _ _ _ _ (by decide)]
  rw [hfm, hfs, h1, h2]
  rw [show (true && !false) = true from rfl, if_pos rfl]
  by_cases hC : truthy (vget (dinsert u1 ("filter_mode") (Val.s ("None")))
      ("filter_description")) = true
  · rw [if_pos hC, dget_dinsert_ne _ _ _ _ (by decide),
      dget_dinsert_ne _ _ _ _ (by decide), dget_dinsert_self]
  · rw [if_neg hC, dget_dinsert_self]

theorem dget_processFilter_ext (ui : Dict)
    (h : truthy (vget ui ("filter_description")) = true) :
    dget (processFilter ui) ("extended_timetable") = some (Val.b true) := by
  have hA : (dget ui ("filter_description")).isSome = true := by
    unfold vget at h
    cases hd : dget ui ("filter_description") with
    | none => rw [hd] at h; simp [Option.getD, truthy] at h
    | some v => simp
  simp only [processFilter]
  rw [if_pos hA]
  by_cases hB : (truthy (vget ui ("filter_mode")) &&
      !truthy (vget ui ("filter_subjects"))) = true
  · rw [if_pos hB]
    have hc : truthy (vget (dinsert ui ("filter_mode") (Val.s ("None")))
        ("filter_description")) = true := by
      rw [vget_dinsert_ne _ _ _ _ (by decide)]
      exact h
    rw [if_pos hc, dget_dinsert_ne _ _ _ _ (by decide), dget_dinsert_self]
  · rw [if_neg hB, if_pos h, dget_dinsert_ne _ _ _ _ (by decide),
      dget_dinsert_self]

theorem nodup_keys_processFilter (ui : Dict)
    (h : (ui.map Prod.fst).Nodup) :
    ((processFilter ui).map Prod.fst).Nodup := by
  simp only [processFilter]
  repeat' split
  all_goals
    repeat
      first
        | exact h
        | apply nodup_keys_dinsert

/-! ### Claim C5 -/

/-- C5 counterexample: the options invariants are not left to the form
schemas alone — the filter step rewrites a submitted `filter_mode` of
`Blacklist` to `None` when no subjects are selected. -/
theorem C5_counterexample :
    asyncStepFilter []
      (some [(("filter_mode"), Val.s ("Blacklist")),
             (("filter_subjects"), Val.list [])]) =
      .saved [(("filter_mode"), Val.s ("None")),
              (("filter_subjects"), Val.list []),
              (("filter_description"), Val.list [])] ∧
    ¬dget [(("filter_mode"), Val.s ("None")),
          (("filter_subjects"), Val.list []),
          (("filter_description"), Val.list [])] ("filter_mode") =
      some (Val.s ("Blacklist")) := by
  exact ⟨by decide, by decide⟩

/-- C5 as amended: the required-keys/enum invariants of the records are
schema-enforced, but the steps do add code-level cross-field logic: the
filter step forces `filter_mode` to `None` when no subjects are chosen
and forces `extended_timetable` when a description filter is given; the
backend step rejects `extended_timetable = False` while stored options
need it; the calendar step forces `extended_timetable` for the
`Lesson Info` description. -/
theorem C5_options_code_logic (old ui : Dict)
    (hnd : (ui.map Prod.fst).Nodup) :
    (truthy (vget ui ("filter_mode")) = true →
      truthy (vget ui ("filter_subjects")) = false →
      ∃ d, asyncStepFilter old (some ui) = .saved d ∧
        dget d ("filter_mode") = some (Val.s ("None"))) ∧
    (truthy (vget ui ("filter_description")) = true →
      ∃ d, asyncStepFilter old (some ui) = .saved d ∧
        dget d ("extended_timetable") = some (Val.b true)) ∧
    (truthy (vget ui ("extended_timetable")) = false →
      truthy (vget old ("filter_description")) = true →
      asyncStepBackend old (some ui) =
        .form [(("base"), ("extended_timetable"))]) ∧
    (vget ui ("extended_timetable") = Val.b false →
      vget old ("calendar_description") = Val.s ("Lesson Info") →
      asyncStepBackend old (some ui) =
        .form [(("base"), ("extended_timetable"))]) ∧
    (vget ui ("calendar_description") = Val.s ("Lesson Info") →
      ∃ d, asyncStepCalendar old (some ui) = .saved d ∧
        dget d ("extended_timetable") = some (Val.b true)) := by
  refine ⟨?_, ?_, ?_, ?_, ?_⟩
  · intro h1 h2
    refine ⟨save old (processFilter ui), rfl, ?_⟩
    rw [save, dget_dupdate _ _ (nodup_keys_processFilter ui hnd) _,
      dget_processFilter_mode ui h1 h2]
  · intro h
    refine ⟨save old (processFilter ui), rfl, ?_⟩
    rw [save, dget_dupdate _ _ (nodup_keys_processFilter ui hnd) _,
      dget_processFilter_ext ui h]
  · intro h1 h2
    simp only [asyncStepBackend]
    rw [h1, h2]
    rw [show (!false && true) = true from rfl, if_pos rfl]
  · intro h1 h2
    simp only [asyncStepBackend]
    by_cases hfirst : (!truthy (vget ui ("extended_timetable")) &&
        truthy (vget old ("filter_description"))) = true
    · rw [hfirst, if_pos rfl]
    · rw [if_neg hfirst, if_pos ⟨h1, h2⟩]
  · intro h
    have hp : dget (processCalendar ui) ("extended_timetable")
        = some (Val.b true) := by
      unfold processCalendar
      rw [if_pos h, dget_dinsert_self]
    have hnp : ((processCalendar ui).map Prod.fst).Nodup := by
      unfold processCalendar
      rw [if_pos h]
      exact nodup_keys_dinsert _ _ _ hnd
    refine ⟨save old (processCalendar ui), rfl, ?_⟩
    rw [save, dget_dupdate _ _ hnp _, hp]

/-- Witness for the amended C5 at concrete option records. -/
theorem C5_options_code_logic_witness :
    (∃ d, asyncStepFilter []
        (some [(("filter_mode"), Val.s ("Blacklist")),
               (("filter_subjects"), Val.list [])]) = .saved d ∧
      dget d ("filter_mode") = some (Val.s ("None"))) ∧
    asyncStepBackend [(("filter_description"), Val.list [("x")])]
      (some [(("extended_timetable"), Val.b false)]) =
      .form [(("base"), ("extended_timetable"))] := by
  constructor
  · exact (C5_options_code_logic []
      [(("filter_mode"), Val.s ("Blacklist")),
       (("filter_subjects"), Val.list [])] (by decide)).1
      (by decide) (by decide)
  · exact (C5_options_code_logic [(("filter_description"), Val.list [("x")])]
      [(("extended_timetable"), Val.b false)] (by decide)).2.2.1
      (by decide) (by decide)

/-! ### Claim C10 -/

theorem dget_if_insert_ne (d : Dict) (k k' : String) (v : Val)
    (h : k ≠ k') :
    dget (if (dget d k).isSome = true then d else dinsert d k v) k'
      = dget d k' := by
  split
  · rfl
  · rw [dget_dinsert_ne _ _ _ _ h]

theorem nodup_keys_processNotify (nk : List String) (ui : Dict)
    (h : (ui.map Prod.fst).Nodup) :
    ((processNotify nk ui).map Prod.fst).Nodup := by
  simp only [processNotify]
  repeat' split
  all_goals
    repeat
      first
        | exact h
        | apply nodup_keys_dinsert
        | apply nodup_keys_filter

/-- C10: after a notify-step save, `notify_options` holds exactly the
truthy submitted `NOTIFY_OPTIONS` keys, no individual `NOTIFY_OPTIONS`
key is written by the step, and `notify_entity_id` / `notify_target` /
`notify_data` are always present, defaulting to `""`, `{}` and `{}`. -/
theorem C10_notify_options (nk : List String) (old ui d : Dict)
    (hnd : (ui.map Prod.fst).Nodup)
    (h1 : ("notify_options") ∉ nk) (h2 : ("notify_entity_id") ∉ nk)
    (h3 : ("notify_target") ∉ nk) (h4 : ("notify_data") ∉ nk)
    (hs : asyncStepNotify nk old (some ui) = .saved d) :
    (∃ sel, dget d ("notify_options") = some (Val.list sel) ∧
      ∀ k, k ∈ sel ↔ k ∈ nk ∧ ∃ v, dget ui k = some v ∧ truthy v = true) ∧
    (∀ k ∈ nk, dget d k = dget old k) ∧
    (∃ v, dget d ("notify_entity_id") = some v) ∧
    (∃ v, dget d ("notify_target") = some v) ∧
    (∃ v, dget d ("notify_data") = some v) ∧
    (dget ui ("notify_entity_id") = Option.none →
      dget d ("notify_entity_id") = some (Val.s (""))) ∧
    (dget ui ("notify_target") = Option.none →
      dget d ("notify_target") = some (Val.dict [])) ∧
    (dget ui ("notify_data") = Option.none →
      dget d ("notify_data") = some (Val.dict [])) := by
  have hd : d = save old (processNotify nk ui) := by
    have : asyncStepNotify nk old (some ui)
        = .saved (save old (processNotify nk ui)) := rfl
    rw [this] at hs
    injection hs with h
    exact h.symm
  subst hd
  have hnp := nodup_keys_processNotify nk ui hnd
  have hupd := fun k => dget_dupdate old (processNotify nk ui) hnp k
  -- the processed submission, step by step
  simp only [processNotify] at hupd hnp ⊢
  generalize hu1e : ui.filter (fun kv => !(nk.contains kv.1)) = u1 at hupd hnp ⊢
  generalize hu2e : dinsert u1 ("notify_options")
      (Val.list ((ui.filter (fun kv => truthy kv.2 && nk.contains kv.1)).map
        Prod.fst)) = u2 at hupd hnp ⊢
  generalize hu3e : (if (dget u2 ("notify_entity_id")).isSome = true then u2
      else dinsert u2 ("notify_entity_id") (Val.s (""))) = u3 at hupd hnp ⊢
  generalize hu4e : (if (dget u3 ("notify_target")).isSome = true then u3
      else dinsert u3 ("notify_target") (Val.dict [])) = u4 at hupd hnp ⊢
  generalize hu5e : (if (dget u4 ("notify_data")).isSome = true then u4
      else dinsert u4 ("notify_data") (Val.dict [])) = u5 at hupd hnp ⊢
  refine ⟨?_, ?_, ?_, ?_, ?_, ?_, ?_, ?_⟩
  · -- notify_options value
    refine ⟨(ui.filter (fun kv => truthy kv.2 && nk.contains kv.1)).map
      Prod.fst, ?_, ?_⟩
    · rw [save, hupd]
      have hno : dget u5 ("notify_options") = some (Val.list
          ((ui.filter (fun kv => truthy kv.2 && nk.contains kv.1)).map
            Prod.fst)) := by
        rw [← hu5e, dget_if_insert_ne _ _ _ _ (by decide),
          ← hu4e, dget_if_insert_ne _ _ _ _ (by decide),
          ← hu3e, dget_if_insert_ne _ _ _ _ (by decide),
          ← hu2e, dget_dinsert_self]
      rw [hno]
    · intro k
      constructor
      · intro hk
        obtain ⟨⟨k', v⟩, hmem, hfst⟩ := List.mem_map.mp hk
        obtain ⟨hin, hp⟩ := List.mem_filter.mp hmem
        rw [Bool.and_eq_true] at hp
        subst hfst
        exact ⟨by simpa using hp.2, v,
          (dget_some_iff_mem ui hnd _ v).mpr hin, hp.1⟩
      · rintro ⟨hknk, v, hv, htr⟩
        refine List.mem_map.mpr ⟨(k, v), List.mem_filter.mpr
          ⟨(dget_some_iff_mem ui hnd _ v).mp hv, ?_⟩, rfl⟩
        rw [Bool.and_eq_true]
        exact ⟨htr, by simpa using hknk⟩
  · -- NOTIFY_OPTIONS keys are never written
    intro k hknk
    have hne1 : k ≠ ("notify_options") := fun hc => h1 (hc ▸ hknk)
    have hne2 : k ≠ ("notify_entity_id") := fun hc => h2 (hc ▸ hknk)
    have hne3 : k ≠ ("notify_target") := fun hc => h3 (hc ▸ hknk)
    have hne4 : k ≠ ("notify_data") := fun hc => h4 (hc ▸ hknk)
    have hnone : dget u5 k = Option.none := by
      rw [← hu5e, dget_if_insert_ne _ _ _ _ (Ne.symm hne4),
        ← hu4e, dget_if_insert_ne _ _ _ _ (Ne.symm hne3),
        ← hu3e, dget_if_insert_ne _ _ _ _ (Ne.symm hne2),
        ← hu2e, dget_dinsert_ne _ _ _ _ (Ne.symm hne1),
        ← hu1e]
      refine dget_filter_of_key_false ui _ k (fun v => ?_)
      show (!nk.elem k) = false
      rw [List.elem_eq_true_of_mem hknk]
      rfl
    rw [save, hupd, hnone]
  · -- notify_entity_id is always present
    have h3p : ∃ v, dget u3 ("notify_entity_id") = some v := by
      rw [← hu3e]
      by_cases hq : (dget u2 ("notify_entity_id")).isSome = true
      · rw [if_pos hq]
        exact Option.isSome_iff_exists.mp hq
      · rw [if_neg hq, dget_dinsert_self]
        exact ⟨_, rfl⟩
    obtain ⟨v, hv⟩ := h3p
    have hv5 : dget u5 ("notify_entity_id") = some v := by
      rw [← hu5e, dget_if_insert_ne _ _ _ _ (by decide),
        ← hu4e, dget_if_insert_ne _ _ _ _ (by decide), hv]
    exact ⟨v, by rw [save, hupd, hv5]⟩
  · -- notify_target is always present
    have h4p : ∃ v, dget u4 ("notify_target") = some v := by
      rw [← hu4e]
      by_cases hq : (dget u3 ("notify_target")).isSome = true
      · rw [if_pos hq]
        exact Option.isSome_iff_exists.mp hq
      · rw [if_neg hq, dget_dinsert_self]
        exact ⟨_, rfl⟩
    obtain ⟨v, hv⟩ := h4p
    have hv5 : dget u5 ("notify_target") = some v := by
      rw [← hu5e, dget_if_insert_ne _ _ _ _ (by decide), hv]
    exact ⟨v, by rw [save, hupd, hv5]⟩
  · -- notify_data is always present
    have h5p : ∃ v, dget u5 ("notify_data") = some v := by
      rw [← hu5e]
      by_cases hq : (dget u4 ("notify_data")).isSome = true
      · rw [if_pos hq]
        exact Option.isSome_iff_exists.mp hq
      · rw [if_neg hq, dget_dinsert_self]
        exact ⟨_, rfl⟩
    obtain ⟨v, hv⟩ := h5p
    exact ⟨v, by rw [save, hupd, hv]⟩
  · -- default "" when notify_entity_id is absent
    intro habs
    have hu1h : dget u1 ("notify_entity_id") = Option.none := by
      rw [← hu1e]
      rw [dget_filter_of_key_true ui _ _ (fun v => ?_), habs]
      show (!nk.elem ("notify_entity_id")) = true
      rw [Bool.eq_false_iff.mpr
        (fun hc => h2 (List.mem_of_elem_eq_true hc))]
      rfl
    have hu2h : dget u2 ("notify_entity_id") = Option.none := by
      rw [← hu2e, dget_dinsert_ne _ _ _ _ (by decide), hu1h]
    have hu3h : dget u3 ("notify_entity_id") = some (Val.s ("")) := by
      rw [← hu3e, if_neg (by rw [hu2h]; simp), dget_dinsert_self]
    have hv5 : dget u5 ("notify_entity_id") = some (Val.s ("")) := by
      rw [← hu5e, dget_if_insert_ne _ _ _ _ (by decide),
        ← hu4e, dget_if_insert_ne _ _ _ _ (by decide), hu3h]
    rw [save, hupd, hv5]
  · -- default {} when notify_target is absent
    intro habs
    have hu1h : dget u1 ("notify_target") = Option.none := by
      rw [← hu1e]
      rw [dget_filter_of_key_true ui _ _ (fun v => ?_), habs]
      show (!nk.elem ("notify_target")) = true
      rw [Bool.eq_false_iff.mpr
        (fun hc => h3 (List.mem_of_elem_eq_true hc))]
      rfl
    have hu2h : dget u2 ("notify_target") = Option.none := by
      rw [← hu2e, dget_dinsert_ne _ _ _ _ (by decide), hu1h]
    have hu3h : dget u3 ("notify_target") = Option.none := by
      rw [← hu3e, dget_if_insert_ne _ _ _ _ (by decide), hu2h]
    have hu4h : dget u4 ("notify_target") = some (Val.dict []) := by
      rw [← hu4e, if_neg (by rw [hu3h]; simp), dget_dinsert_self]
    have hv5 : dget u5 ("notify_target") = some (Val.dict []) := by
      rw [← hu5e, dget_if_insert_ne _ _ _ _ (by decide), hu4h]
    rw [save, hupd, hv5]
  · -- default {} when notify_data is absent
    intro habs
    have hu1h : dget u1 ("notify_data") = Option.none := by
      rw [← hu1e]
      rw [dget_filter_of_key_true ui _ _ (fun v => ?_), habs]
      show (!nk.elem ("notify_data")) = true
      rw [Bool.eq_false_iff.mpr
        (fun hc => h4 (List.mem_of_elem_eq_true hc))]
      rfl
    have hu2h : dget u2 ("notify_data") = Option.none := by
      rw [← hu2e, dget_dinsert_ne _ _ _ _ (by decide), hu1h]
    have hu3h : dget u3 ("notify_data") = Option.none := by
      rw [← hu3e, dget_if_insert_ne _ _ _ _ (by decide), hu2h]
    have hu4h : dget u4 ("notify_data") = Option.none := by
      rw [← hu4e, dget_if_insert_ne _ _ _ _ (by decide), hu3h]
    have hv5 : dget u5 ("notify_data") = some (Val.dict []) := by
      rw [← hu5e, if_neg (by rw [hu4h]; simp), dget_dinsert_self]
    rw [save, hupd, hv5]

/-- A concrete notify submission: one truthy option, one falsy option,
an entity id, no target and no data. -/
def uiNotify : Dict :=
  [(("opt_a"), Val.b true), (("opt_b"), Val.b false),
   (("notify_entity_id"), Val.s ("notify.x"))]

/-- The options record stored before the concrete notify save. -/
def oldNotify : Dict := [(("other"), Val.s ("keep"))]

/-- The options record the concrete notify save produces. -/
def savedNotify : Dict :=
  [(("other"), Val.s ("keep")), (("notify_entity_id"), Val.s ("notify.x")),
   (("notify_options"), Val.list [("opt_a")]),
   (("notify_target"), Val.dict []), (("notify_data"), Val.dict [])]

/-- Witness for C10 at the concrete notify submission. -/
theorem C10_notify_options_witness :
    asyncStepNotify [("opt_a"), ("opt_b")] oldNotify (some uiNotify) =
      .saved savedNotify ∧
    (∃ sel, dget savedNotify ("notify_options") = some (Val.list sel) ∧
      ∀ k, k ∈ sel ↔ k ∈ [("opt_a"), ("opt_b")] ∧
        ∃ v, dget uiNotify k = some v ∧ truthy v = true) ∧
    (∀ k ∈ [("opt_a"), ("opt_b")], dget savedNotify k = dget oldNotify k) ∧
    dget savedNotify ("notify_target") = some (Val.dict []) := by
  have happ := C10_notify_options [("opt_a"), ("opt_b")] oldNotify uiNotify
    savedNotify (by decide) (by decide) (by decide) (by decide) (by decide)
    (by decide)
  exact ⟨by decide, happ.1, happ.2.1, happ.2.2.2.2.2.2.1 (by decide)⟩

/-! ### Claim C7 -/

/-- Whether an external check fails in environment `env` on the
(normalized) input `i`, with the arguments `validate_input` passes. -/
def checkFails (env : Env) (i : UserInput) : Check → Bool
  | .resolve => !env.resolveOk i.server
  | .login =>
      match env.login i.server i.school i.username i.password with
      | .ok => false
      | _ => true
  | .studentLookup =>
      match pyIndex i.timetable_source_id 1, pyIndex i.timetable_source_id 0 with
      | some x, some y => (env.getStudent x y).isNone
      | _, _ => true
  | .klasseLookup =>
      !env.klassenOk || (env.klasseFilter i.timetable_source_id).isNone
  | .teacherLookup =>
      match pyIndex i.timetable_source_id 1, pyIndex i.timetable_source_id 0 with
      | some x, some y => (env.getTeacher x y).isNone
      | _, _ => true
  | .timetableFetch =>
      match (lookupSource env i).1 with
      | .ok (some h) => !env.timetableOk i.timetable_source h
      | _ => true

theorem splitName_some_pair (s : String) (parts : List String)
    (h : splitName s = some parts) : ∃ a b, parts = [a, b] := by
  simp only [splitName] at h
  generalize hL : (if (pySplit ',' s).length = 2 then pySplit ',' s
    else pySplit ' ' s) = L at h
  split_ifs at h with hlen
  · rcases List.length_eq_two.mp hlen with ⟨x, y, rfl⟩
    injection h with h
    exact ⟨_, _, h.symm⟩

theorem lookupSource_student (env : Env) (i : UserInput) (a b : String)
    (rest : List String) (hts : i.timetable_source = ("student"))
    (hid : i.timetable_source_id = .list (a :: b :: rest)) :
    lookupSource env i =
      (match env.getStudent b a with
       | some h => .ok (some h)
       | Option.none => .error .studentNotFound,
       [.studentLookup]) := by
  unfold lookupSource
  rw [if_pos hts, hid]
  rfl

theorem lookupSource_klasse (env : Env) (i : UserInput)
    (hts : i.timetable_source = ("klasse")) :
    lookupSource env i =
      (if env.klassenOk then
        (match env.klasseFilter i.timetable_source_id with
         | some h => .ok (some h)
         | Option.none => .error .classNotFound,
         [.klasseLookup])
       else (.error .uncaught, [.klasseLookup])) := by
  unfold lookupSource
  rw [if_neg (by rw [hts]; decide), if_pos hts]

theorem lookupSource_teacher (env : Env) (i : UserInput) (a b : String)
    (rest : List String) (hts : i.timetable_source = ("teacher"))
    (hid : i.timetable_source_id = .list (a :: b :: rest)) :
    lookupSource env i =
      (match env.getTeacher b a with
       | some h => .ok (some h)
       | Option.none => .error .teacherNotFound,
       [.teacherLookup]) := by
  unfold lookupSource
  rw [if_neg (by rw [hts]; decide), if_neg (by rw [hts]; decide),
    if_pos hts, hid]
  rfl

theorem normalizeName_klasse (inp i : UserInput)
    (hts : inp.timetable_source = ("klasse"))
    (hn : normalizeName inp = .ok i) : i = inp := by
  unfold normalizeName at hn
  rw [if_neg (by rw [hts]; decide)] at hn
  injection hn with hn
  exact hn.symm

/-- C7: `validate_input` performs no retries and no recovery: in one
call every external check is attempted at most once, and on an error
either the name split failed before any check was attempted, or the
trace ends at the first failing check, every earlier check having
succeeded. -/
theorem C7_no_retry (env : Env) (inp : UserInput) (res : Except VErr String)
    (i2 : UserInput) (tr : List Check)
    (hkind : inp.timetable_source ∈ [("student"), ("klasse"), ("teacher")])
    (hstr : ∃ s, inp.timetable_source_id = .str s)
    (hv : validateInput env inp = (res, i2, tr)) :
    tr.Nodup ∧
    ∀ e, res = .error e →
      (e = .nameSplitError ∧ tr = []) ∨
      (∃ tr0 c, tr = tr0 ++ [c] ∧ checkFails env i2 c = true ∧
        ∀ c' ∈ tr0, checkFails env i2 c' = false) := by
  obtain ⟨s0, hs0⟩ := hstr
  unfold validateInput at hv
  cases hn : normalizeName inp <;> rw [hn] at hv <;> try simp only [] at hv
  case error e0 =>
      simp only [Prod.mk.injEq] at hv
      obtain ⟨h1, h2, h3⟩ := hv
      subst h1
      subst h2
      subst h3
      have he0 := ((normalizeName_error_iff inp e0).mp hn).1
      refine ⟨List.nodup_nil, fun e he => ?_⟩
      injection he with he
      subst he
      exact Or.inl ⟨he0, rfl⟩
  case ok i =>
      have hfields := normalizeName_ok_fields inp i hn
      by_cases hres : env.resolveOk i.server = true
      case neg =>
          have hres' : env.resolveOk i.server = false := Bool.eq_false_iff.mpr hres
          rw [if_pos (by rw [hres']; rfl)] at hv
          simp only [Prod.mk.injEq] at hv
          obtain ⟨h1, h2, h3⟩ := hv
          subst h1
          subst h2
          subst h3
          refine ⟨by decide, fun e he => ?_⟩
          injection he with he
          subst he
          right
          refine ⟨[], .resolve, rfl, ?_, ?_⟩
          · simp [checkFails, hres']
          · intro c' hc'
            simp at hc'
      case pos =>
      rw [if_neg (by rw [hres]; simp)] at hv
      cases hlog : env.login i.server i.school i.username i.password <;>
        rw [hlog] at hv <;> try simp only [] at hv
      case ok =>
          simp only [List.mem_cons, List.mem_singleton, List.not_mem_nil,
            or_false] at hkind
          rcases hkind with hts | hts | hts
          · -- student
            have hkmem : inp.timetable_source ∈ [("student"), ("teacher")] := by
              rw [hts]
              decide
            obtain ⟨parts, hsp, hidl⟩ :=
              normalizeName_ok_id_str inp i s0 hn hkmem hs0
            obtain ⟨a, b, rfl⟩ := splitName_some_pair s0 parts hsp
            have hts_i : i.timetable_source = ("student") := by
              rw [hfields.2.2.2.2, hts]
            have hls := lookupSource_student env i a b [] hts_i hidl
            rw [hls] at hv
            cases hgs : env.getStudent b a with
            | none =>
                rw [hgs] at hv
                try simp only [] at hv
                simp only [Prod.mk.injEq] at hv
                obtain ⟨h1, h2, h3⟩ := hv
                subst h1
                subst h2
                subst h3
                refine ⟨by decide, fun e he => ?_⟩
                injection he with he
                subst he
                right
                refine ⟨[Check.resolve, Check.login], .studentLookup, rfl,
                  ?_, ?_⟩
                · simp [checkFails, hidl, pyIndex, hgs]
                · intro c' hc'
                  fin_cases hc' <;> simp [checkFails, hres, hlog]
            | some hdl =>
                rw [hgs] at hv
                try simp only [] at hv
                by_cases htt : env.timetableOk i.timetable_source hdl = true
                · rw [if_pos htt] at hv
                  simp only [Prod.mk.injEq] at hv
                  obtain ⟨h1, h2, h3⟩ := hv
                  subst h1
                  subst h2
                  subst h3
                  refine ⟨by decide, fun e he => ?_⟩
                  exact Except.noConfusion he
                · rw [if_neg htt] at hv
                  have htt' : env.timetableOk i.timetable_source hdl = false :=
                    Bool.eq_false_iff.mpr htt
                  simp only [Prod.mk.injEq] at hv
                  obtain ⟨h1, h2, h3⟩ := hv
                  subst h1
                  subst h2
                  subst h3
                  refine ⟨by decide, fun e he => ?_⟩
                  injection he with he
                  subst he
                  right
                  refine ⟨[Check.resolve, Check.login] ++ [Check.studentLookup],
                    .timetableFetch, rfl, ?_, ?_⟩
                  · simp [checkFails, hls, hgs, htt']
                  · intro c' hc'
                    fin_cases hc' <;>
                      simp [checkFails, hres, hlog, hidl, pyIndex, hgs]
          · -- klasse
            have hts_i : i.timetable_source = ("klasse") := by
              rw [hfields.2.2.2.2, hts]
            have hls := lookupSource_klasse env i hts_i
            rw [hls] at hv
            by_cases hko : env.klassenOk = true
            · rw [if_pos hko] at hv
              cases hkf : env.klasseFilter i.timetable_source_id with
              | none =>
                  rw [hkf] at hv
                  try simp only [] at hv
                  simp only [Prod.mk.injEq] at hv
                  obtain ⟨h1, h2, h3⟩ := hv
                  subst h1
                  subst h2
                  subst h3
                  refine ⟨by decide, fun e he => ?_⟩
                  injection he with he
                  subst he
                  right
                  refine ⟨[Check.resolve, Check.login], .klasseLookup, rfl,
                    ?_, ?_⟩
                  · simp [checkFails, hko, hkf]
                  · intro c' hc'
                    fin_cases hc' <;> simp [checkFails, hres, hlog]
              | some hdl =>
                  rw [hkf] at hv
                  try simp only [] at hv
                  by_cases htt : env.timetableOk i.timetable_source hdl = true
                  · rw [if_pos htt] at hv
                    simp only [Prod.mk.injEq] at hv
                    obtain ⟨h1, h2, h3⟩ := hv
                    subst h1
                    subst h2
                    subst h3
                    refine ⟨by decide, fun e he => ?_⟩
                    exact Except.noConfusion he
                  · rw [if_neg htt] at hv
                    have htt' : env.timetableOk i.timetable_source hdl = false :=
                      Bool.eq_false_iff.mpr htt
                    simp only [Prod.mk.injEq] at hv
                    obtain ⟨h1, h2, h3⟩ := hv
                    subst h1
                    subst h2
                    subst h3
                    refine ⟨by decide, fun e he => ?_⟩
                    injection he with he
                    subst he
                    right
                    refine ⟨[Check.resolve, Check.login] ++ [Check.klasseLookup],
                      .timetableFetch, rfl, ?_, ?_⟩
                    · simp [checkFails, hls, hko, hkf, htt']
                    · intro c' hc'
                      fin_cases hc' <;> simp [checkFails, hres, hlog, hko, hkf]
            · have hko' : env.klassenOk = false := Bool.eq_false_iff.mpr hko
              rw [if_neg hko] at hv
              try simp only [] at hv
              simp only [Prod.mk.injEq] at hv
              obtain ⟨h1, h2, h3⟩ := hv
              subst h1
              subst h2
              subst h3
              refine ⟨by decide, fun e he => ?_⟩
              injection he with he
              subst he
              right
              refine ⟨[Check.resolve, Check.login], .klasseLookup, rfl, ?_, ?_⟩
              · simp [checkFails, hko']
              · intro c' hc'
                fin_cases hc' <;> simp [checkFails, hres, hlog]
          · -- teacher
            have hkmem : inp.timetable_source ∈ [("student"), ("teacher")] := by
              rw [hts]
              decide
            obtain ⟨parts, hsp, hidl⟩ :=
              normalizeName_ok_id_str inp i s0 hn hkmem hs0
            obtain ⟨a, b, rfl⟩ := splitName_some_pair s0 parts hsp
            have hts_i : i.timetable_source = ("teacher") := by
              rw [hfields.2.2.2.2, hts]
            have hls := lookupSource_teacher env i a b [] hts_i hidl
            rw [hls] at hv
            cases hgs : env.getTeacher b a with
            | none =>
                rw [hgs] at hv
                try simp only [] at hv
                simp only [Prod.mk.injEq] at hv
                obtain ⟨h1, h2, h3⟩ := hv
                subst h1
                subst h2
                subst h3
                refine ⟨by decide, fun e he => ?_⟩
                injection he with he
                subst he
                right
                refine ⟨[Check.resolve, Check.login], .teacherLookup, rfl,
                  ?_, ?_⟩
                · simp [checkFails, hidl, pyIndex, hgs]
                · intro c' hc'
                  fin_cases hc' <;> simp [checkFails, hres, hlog]
            | some hdl =>
                rw [hgs] at hv
                try simp only [] at hv
                by_cases htt : env.timetableOk i.timetable_source hdl = true
                · rw [if_pos htt] at hv
                  simp only [Prod.mk.injEq] at hv
                  obtain ⟨h1, h2, h3⟩ := hv
                  subst h1
                  subst h2
                  subst h3
                  refine ⟨by decide, fun e he => ?_⟩
                  exact Except.noConfusion he
                · rw [if_neg htt] at hv
                  have htt' : env.timetableOk i.timetable_source hdl = false :=
                    Bool.eq_false_iff.mpr htt
                  simp only [Prod.mk.injEq] at hv
                  obtain ⟨h1, h2, h3⟩ := hv
                  subst h1
                  subst h2
                  subst h3
                  refine ⟨by decide, fun e he => ?_⟩
                  injection he with he
                  subst he
                  right
                  refine ⟨[Check.resolve, Check.login] ++ [Check.teacherLookup],
                    .timetableFetch, rfl, ?_, ?_⟩
                  · simp [checkFails, hls, hgs, htt']
                  · intro c' hc'
                    fin_cases hc' <;>
                      simp [checkFails, hres, hlog, hidl, pyIndex, hgs]
      all_goals
        simp only [Prod.mk.injEq] at hv
        obtain ⟨h1, h2, h3⟩ := hv
        subst h1
        subst h2
        subst h3
        refine ⟨by decide, fun e he => ?_⟩
        injection he with he
        subst he
        right
        refine ⟨[Check.resolve], .login, rfl, ?_, ?_⟩
        · simp [checkFails, hlog]
        · intro c' hc'
          fin_cases hc'
          simp [checkFails, hres]

/-- Witness for C7: on a concrete failing resolution the trace is the
single `resolve` check and it is the failing one. -/
theorem C7_no_retry_witness :
    ([Check.resolve] : List Check).Nodup ∧
    (∃ tr0 c, ([Check.resolve] : List Check) = tr0 ++ [c] ∧
      checkFails envNoResolve uiKlasse c = true ∧
      ∀ c' ∈ tr0, checkFails envNoResolve uiKlasse c' = false) := by
  have happ := C7_no_retry envNoResolve uiKlasse (.error .cannotConnect)
    uiKlasse [.resolve] (by decide) ⟨("1a"), rfl⟩ rfl
  refine ⟨happ.1, ?_⟩
  rcases happ.2 .cannotConnect rfl with ⟨hns, -⟩ | hr
  · exact absurd hns (by decide)
  · exact hr

end WebUntis
